import Mathlib

/-!
Verification development for the sandboxed execution and artifact pipeline
(`assistant/session_manager.py`, `assistant/code_executor.py`, `config/config.py`).

The Python code is shallowly embedded: dataclasses become structures, the
mutable `SessionManager` becomes explicit state passing, `pathlib.Path`
values become a one-field wrapper around their string rendering, Python
dicts become association lists with Python's insertion semantics, and the
fallible `load_session` returns the resulting state together with an
optional error message (mirroring which attributes were already mutated
when an exception is raised).
-/

namespace CellByte

/-! ### Decimal rendering and parsing

`zfill3` models the Python format `f"{n:03d}"` used in
`SessionManager.create_artifact`; `pyIntChars` models `int(...)` applied to
the identifier-suffix strings handled by `load_session` (an optional minus
sign followed by decimal digits; other forms of `int`'s grammar never arise
from the identifiers this program builds). -/

/-- The decimal digit character for `n < 10`. -/
def digitChar (n : Nat) : Char := Char.ofNat (48 + n)

/-- Fuel-driven decimal rendering accumulator (least significant digit first
pushed onto `acc`). -/
def natDigitsGo : Nat → Nat → List Char → List Char
  | 0, _, acc => acc
  | fuel + 1, n, acc =>
    if n < 10 then digitChar n :: acc
    else natDigitsGo fuel (n / 10) (digitChar (n % 10) :: acc)

/-- Decimal digit list of a natural number (no sign, no padding). -/
def natToDigits (n : Nat) : List Char := natDigitsGo (n + 1) n []

/-- Left-pad a digit list with zeros to width `w`. -/
def padZeros (w : Nat) (ds : List Char) : List Char :=
  List.replicate (w - ds.length) '0' ++ ds

/-- Models Python `f"{n:03d}"`: zero-padded to total width 3, the sign
counting towards the width. -/
def zfill3 (n : Int) : String :=
  if n < 0 then ⟨'-' :: padZeros 2 (natToDigits n.natAbs)⟩
  else ⟨padZeros 3 (natToDigits n.toNat)⟩

/-- Accumulating decimal parser: consumes digits, `none` on any non-digit. -/
def parseDigitsGo : Int → List Char → Option Int
  | acc, [] => some acc
  | acc, c :: cs =>
    if c.isDigit then parseDigitsGo (10 * acc + ((c.toNat - 48 : Nat) : Int)) cs
    else none

/-- Models Python `int(s)` on an optional minus sign followed by decimal
digits; other strings are treated as unparsable. -/
def pyIntChars : List Char → Option Int
  | [] => none
  | c :: cs =>
    if c = '-' then
      match cs with
      | [] => none
      | _ => (parseDigitsGo 0 cs).map (fun v => -v)
    else parseDigitsGo 0 (c :: cs)

/-- Split a character list on a separator character; models Python
`str.split` with a one-character separator (always returns at least one
group). -/
def splitOnChar (sep : Char) : List Char → List (List Char)
  | [] => [[]]
  | c :: cs =>
    if c = sep then [] :: splitOnChar sep cs
    else
      match splitOnChar sep cs with
      | [] => [[c]]
      | g :: gs => (c :: g) :: gs

/-- Models `int(aid.split(sep)[-1])` for `sep = underscore`: the numeric
value of the last underscore-separated chunk of an artifact identifier. -/
def idNumericSuffix (aid : String) : Option Int :=
  pyIntChars ((splitOnChar '_' aid.data).getLastD [])

/-- Models Python `max(l)` for a nonempty list (`max([], default=0)` would
be `0`, but the call site guards against the empty case). -/
def pyMax : List Int → Int
  | [] => 0
  | x :: xs => xs.foldl max x

/-! ### Data model (`session_manager.py`) -/

/-- Models a `pathlib.Path` value by its string rendering `str(path)`;
`Path(s)` is embedded as `PyPath.mk s` and `str(p)` as `p.s`. -/
structure PyPath where
  s : String
deriving DecidableEq, Repr

/-- The `Artifact` dataclass. `metadata` is an association list standing for
the free-form metadata dict. -/
structure Artifact where
  id : String
  type : String
  format : String
  path : PyPath
  query : String
  created_at : String
  metadata : List (String × String) := []
deriving DecidableEq, Repr

/-- The `Artifact.to_dict` image: same fields with `path` rendered to a
string (`d['path'] = str(self.path)`). -/
structure ArtifactDict where
  id : String
  type : String
  format : String
  path : String
  query : String
  created_at : String
  metadata : List (String × String)
deriving DecidableEq, Repr

/-- `Artifact.to_dict`. -/
def Artifact.to_dict (a : Artifact) : ArtifactDict :=
  { id := a.id, type := a.type, format := a.format, path := a.path.s,
    query := a.query, created_at := a.created_at, metadata := a.metadata }

/-- `Artifact(**d)` applied to a dict whose `path` entry has been converted
back by `Path(...)` in `load_session`. -/
def artifactOfDict (d : ArtifactDict) : Artifact :=
  { id := d.id, type := d.type, format := d.format, path := ⟨d.path⟩,
    query := d.query, created_at := d.created_at, metadata := d.metadata }

/-- The `Interaction` dataclass; `to_dict` is the identity on these fields,
so the dict form is the structure itself. -/
structure Interaction where
  query : String
  plan : String
  code : String
  result_summary : String
  artifacts : List String := []
  timestamp : String
deriving DecidableEq, Repr

/-- The mutable state of a `SessionManager`: `self.interactions`,
`self.artifacts` (a dict embedded as an insertion-ordered association
list), and `self._artifact_counter`. -/
structure SMState where
  interactions : List Interaction
  artifacts : List (String × Artifact)
  artifactCounter : Int
deriving DecidableEq, Repr

/-- `SessionManager.__init__`. -/
def initialSessionState : SMState :=
  { interactions := [], artifacts := [], artifactCounter := 0 }

/-- Python dict assignment `d[k] = v` on an insertion-ordered association
list: an existing key is updated in place, a new key is appended. -/
def dictInsert : List (String × α) → String → α → List (String × α)
  | [], k, v => [(k, v)]
  | (k', v') :: rest, k, v =>
    if k' = k then (k, v) :: rest else (k', v') :: dictInsert rest k v

/-! ### `SessionManager.add_interaction` -/

/-- Python slice `l[-lim:]` for a natural `lim`: the last `lim` elements,
except that `l[-0:]` is the whole list. -/
def pyLastSlice (lim : Nat) (l : List α) : List α :=
  if lim = 0 then l else l.drop (l.length - lim)

/-- `SessionManager.add_interaction`: append the new interaction, then trim
the history to the configured limit (`settings.HISTORY_LIMIT`, default 5).
The timestamp stands for the `datetime.now().isoformat()` default. -/
def add_interaction (histLimit : Nat) (log : List Interaction)
    (query plan code result_summary : String)
    (artifact_ids : Option (List String)) (ts : String) : List Interaction :=
  let i : Interaction :=
    { query := query, plan := plan, code := code,
      result_summary := result_summary,
      artifacts := artifact_ids.getD [], timestamp := ts }
  let l := log ++ [i]
  if histLimit < l.length then pyLastSlice histLimit l else l

/-! ### `SessionManager.create_artifact` -/

/-- The identifier format `f"{artifact_type}_{counter:03d}"`. -/
def mkArtifactId (ty : String) (n : Int) : String := ty ++ "_" ++ zfill3 n

/-- `SessionManager.create_artifact`: bump the counter, build the artifact,
register it, and return it together with the updated state. -/
def create_artifact (s : SMState) (artifact_type file_format : String)
    (path : PyPath) (query ts : String) : Artifact × SMState :=
  let c := s.artifactCounter + 1
  let aid := mkArtifactId artifact_type c
  let a : Artifact :=
    { id := aid, type := artifact_type, format := file_format, path := path,
      query := query, created_at := ts, metadata := [] }
  (a, { s with artifactCounter := c, artifacts := dictInsert s.artifacts aid a })

/-! ### `SessionManager.save_session` / `SessionManager.load_session` -/

/-- The serialized session document built by `save_session` (the JSON layer
is modelled structurally: a dict of strings survives `json.dump`/`json.load`
unchanged). -/
structure SessionDoc where
  interactions : List Interaction
  artifacts : List (String × ArtifactDict)
  saved_at : String
deriving DecidableEq, Repr

/-- `SessionManager.save_session` (the successfully written document). -/
def save_session (s : SMState) (ts : String) : SessionDoc :=
  { interactions := s.interactions,
    artifacts := s.artifacts.map (fun p => (p.1, p.2.to_dict)),
    saved_at := ts }

/-- A parsed-but-unvalidated session document as `load_session` sees it:
each entry is `some` a dict matching the dataclass constructor, or `none`
for a dict on which `Interaction(**i)` / `Artifact(**d)` raises. -/
structure RawSessionDoc where
  interactions : List (Option Interaction)
  artifacts : List (String × Option ArtifactDict)
  saved_at : String
deriving DecidableEq, Repr

/-- A well-formed saved document, reread as a raw one. -/
def rawOfDoc (d : SessionDoc) : RawSessionDoc :=
  { interactions := d.interactions.map some,
    artifacts := d.artifacts.map (fun p => (p.1, some p.2)),
    saved_at := d.saved_at }

/-- What `load_session` finds at the given path: no file at all, a file
`json.load` cannot parse, or a parsed document. -/
inductive LoadInput where
  | missing
  | unparsable
  | doc (d : RawSessionDoc)
deriving DecidableEq, Repr

/-- A list comprehension that raises on the first bad element: `some` of all
values if every element is `some`, otherwise `none`. -/
def allSome : List (Option α) → Option (List α)
  | [] => some []
  | none :: _ => none
  | some a :: rest => (allSome rest).map (fun l => a :: l)

/-- The `for artifact_id, artifact_data in ...` loop of `load_session`,
rebuilding `self.artifacts` from `{}`; on a malformed entry it stops with
the partially rebuilt dict and a failure flag. -/
def loadArtifactsGo : List (String × Option ArtifactDict) →
    List (String × Artifact) → List (String × Artifact) × Bool
  | [], acc => (acc, true)
  | (_, none) :: _, acc => (acc, false)
  | (k, some d) :: rest, acc => loadArtifactsGo rest (dictInsert acc k (artifactOfDict d))

/-- The error text of the `except` clause of `load_session` (the Python
message also embeds the underlying exception's text). -/
def loadErrMsg (fp : String) : String :=
  "Failed to load or parse session file " ++ fp

/-- `SessionManager.load_session`, returning the in-memory state left
behind together with `some` error message when the call raises. Mutation
order mirrors the source: `self.interactions` is assigned first (the list
comprehension completes or raises before the assignment), `self.artifacts`
is reset and rebuilt entry by entry, and `self._artifact_counter` is only
reassigned at the very end when the rebuilt dict is nonempty and every
identifier's numeric suffix parses. -/
def load_session (s : SMState) (fp : String) (inp : LoadInput) :
    SMState × Option String :=
  match inp with
  | .missing => (s, some ("Session file not found: " ++ fp))
  | .unparsable => (s, some (loadErrMsg fp))
  | .doc d =>
    match allSome d.interactions with
    | none => (s, some (loadErrMsg fp))
    | some ins =>
      let s1 := { s with interactions := ins }
      match loadArtifactsGo d.artifacts [] with
      | (acc, false) => ({ s1 with artifacts := acc }, some (loadErrMsg fp))
      | (arts, true) =>
        let s2 := { s1 with artifacts := arts }
        if arts.isEmpty then (s2, none)
        else
          match allSome ((arts.map Prod.fst).map idNumericSuffix) with
          | none => (s2, some (loadErrMsg fp))
          | some vals => ({ s2 with artifactCounter := pyMax vals }, none)

/-! ### Code executor (`code_executor.py`) -/

/-- The `ExecutionResult` dataclass; `output_files` (classified type to
final path) is an insertion-ordered association list like the Python dict. -/
structure ExecutionResult where
  success : Bool
  stdout : String
  stderr : String
  output_files : List (String × String)
  error : Option String := none
deriving DecidableEq, Repr

/-- Outcome of the one `subprocess.run` call a backend makes: the child ran
to completion with an exit status, the wall-clock timeout fired
(`subprocess.TimeoutExpired`), or launching failed with some other
exception. -/
inductive RunOutcome where
  | completed (returncode : Int) (stdout stderr : String)
  | timedOut
  | launchFailure (cause : String)
deriving DecidableEq, Repr

/-- A file the collector may see in the sandbox output area. `content` is
carried only to express that classification ignores it. -/
structure OutFile where
  name : String
  isFile : Bool
  content : String
deriving DecidableEq, Repr

/-- Python `pathlib.PurePath.suffix` of a file name: the substring from the
last dot, provided that dot is neither the first nor the last character;
otherwise the empty string. -/
def pySuffix (name : String) : String :=
  let cs := name.data
  let n := cs.length
  match cs.reverse.findIdx? (fun c => c = '.') with
  | none => ""
  | some j =>
    let i := n - 1 - j
    if 0 < i ∧ i < n - 1 then ⟨cs.drop i⟩ else ""

/-- The fixed classification table of `_collect_output_files`. -/
def typeMap : List (String × String) :=
  [(".png", "chart"), (".jpg", "chart"), (".csv", "table"), (".xlsx", "table")]

/-- The classification applied to one output file:
`type_map.get(file_path.suffix.lower(), 'file')`. -/
def classifyFile (f : OutFile) : String :=
  (typeMap.lookup (pySuffix f.name).toLower).getD "file"

/-- `CodeExecutor._collect_output_files`: iterate the output area, classify
each regular file, move it into the destination directory and record one
mapping entry per file (later files overwrite earlier entries of the same
classification). -/
def collect_output_files (files : List OutFile) (destDir : String) :
    List (String × String) :=
  files.foldl
    (fun acc f =>
      if f.isFile then dictInsert acc (classifyFile f) (destDir ++ "/" ++ f.name)
      else acc)
    []

/-- `CodeExecutor._execute_subprocess`, given the outcome of the
`subprocess.run` call and the files present in the sandbox output area
afterwards. `timeout` is `settings.CODE_EXECUTION_TIMEOUT`. The
`_collect_output_files` call sits inside the same `try`, and whether one of
its `shutil.move` calls raises is decided by the filesystem, not by the
in-model file list: `collectFailure` is that environment outcome, `some`
the exception text when a move raises. A raise there is caught by the
generic `except Exception` clause, even after a completed run. -/
def execute_subprocess (outcome : RunOutcome) (collectFailure : Option String)
    (outputArea : List OutFile) (sessionOutputDir : String) (timeout : Int) :
    ExecutionResult :=
  match outcome with
  | .completed rc out err =>
    match collectFailure with
    | none =>
      { success := rc = 0, stdout := out, stderr := err,
        output_files := collect_output_files outputArea sessionOutputDir }
    | some cause =>
      { success := false, stdout := "", stderr := "", output_files := [],
        error := some ("Subprocess execution error: " ++ cause) }
  | .timedOut =>
    { success := false, stdout := "", stderr := "", output_files := [],
      error := some ("Execution timed out after " ++ toString timeout ++ "s") }
  | .launchFailure cause =>
    { success := false, stdout := "", stderr := "", output_files := [],
      error := some ("Subprocess execution error: " ++ cause) }

/-- `CodeExecutor._execute_docker`, same shape (collection likewise inside
the `try`); the `subprocess.run` wall clock is `timeout + 30` but the
timeout message reports the configured `timeout` itself. -/
def execute_docker (outcome : RunOutcome) (collectFailure : Option String)
    (outputArea : List OutFile) (sessionOutputDir : String) (timeout : Int) :
    ExecutionResult :=
  match outcome with
  | .completed rc out err =>
    match collectFailure with
    | none =>
      { success := rc = 0, stdout := out, stderr := err,
        output_files := collect_output_files outputArea sessionOutputDir }
    | some cause =>
      { success := false, stdout := "", stderr := "", output_files := [],
        error := some ("Docker execution error: " ++ cause) }
  | .timedOut =>
    { success := false, stdout := "", stderr := "", output_files := [],
      error := some ("Docker execution timed out after " ++ toString timeout ++ "s") }
  | .launchFailure cause =>
    { success := false, stdout := "", stderr := "", output_files := [],
      error := some ("Docker execution error: " ++ cause) }

/-! ### Placeholder-path rewriting (`_prepare_code_for_local_execution`) -/

/-- Python `str.replace`: replace every non-overlapping occurrence of `pat`,
scanning left to right. Structured with explicit fuel (at least the length
of the text) so it evaluates by kernel reduction; the source patterns are
nonempty. -/
def replaceGo (pat rep : List Char) : Nat → List Char → List Char
  | _, [] => []
  | 0, s => s
  | fuel + 1, c :: rest =>
    if pat ≠ [] ∧ pat.isPrefixOf (c :: rest) then
      rep ++ replaceGo pat rep fuel ((c :: rest).drop pat.length)
    else c :: replaceGo pat rep fuel rest

/-- `code.replace(pat, rep)` on strings. -/
def pyReplace (s pat rep : String) : String :=
  ⟨replaceGo pat.data rep.data s.data.length s.data⟩

/-- Does `pat` occur as a contiguous substring? -/
def containsPat (pat : List Char) : List Char → Bool
  | [] => pat.isEmpty
  | c :: rest => pat.isPrefixOf (c :: rest) || containsPat pat rest

/-- Specification vocabulary for what `str.replace` rewrites: the greedy,
leftmost, non-overlapping decomposition of a text at occurrences of a
pattern, returning the segments between consecutive occurrences. It scans
exactly like `replaceGo` (same fuel, same branch conditions), so the two
can be compared occurrence by occurrence. -/
def splitSegsGo (pat : List Char) : Nat → List Char → List (List Char)
  | _, [] => [[]]
  | 0, s => [s]
  | fuel + 1, c :: rest =>
    if pat ≠ [] ∧ pat.isPrefixOf (c :: rest) then
      [] :: splitSegsGo pat fuel ((c :: rest).drop pat.length)
    else
      match splitSegsGo pat fuel rest with
      | [] => [[c]]
      | g :: gs => (c :: g) :: gs

/-- Interleave a separator between segments (Python `sep.join(segs)`). -/
def joinWith (sep : List α) : List (List α) → List α
  | [] => []
  | [g] => g
  | g :: gs => g ++ sep ++ joinWith sep gs

/-- The segments of a string at the occurrences of a pattern. -/
def patSegments (pat s : String) : List (List Char) :=
  splitSegsGo pat.data s.data.length s.data

/-- A single-quote character, and `dq` a double quote. -/
def sq : String := String.singleton (Char.ofNat 39)

/-- A double-quote character. -/
def dq : String := String.singleton (Char.ofNat 34)

/-- `CodeExecutor._prepare_code_for_local_execution`: rewrite quoted
references to the abstract `/data/` and `/output/` roots into raw-string
literals opening onto the real sandbox directories. -/
def prepare_code_for_local_execution (code : String) (dataDir outputDir : String) :
    String :=
  let c1 := pyReplace code (sq ++ "/data/") ("r" ++ sq ++ dataDir ++ "/")
  let c2 := pyReplace c1 (dq ++ "/data/") ("r" ++ dq ++ dataDir ++ "/")
  let c3 := pyReplace c2 (sq ++ "/output/") ("r" ++ sq ++ outputDir ++ "/")
  pyReplace c3 (dq ++ "/output/") ("r" ++ dq ++ outputDir ++ "/")

/-- The script text `_execute_docker` writes to `execute.py`: the incoming
code, unmodified (no placeholder rewriting on the container path). -/
def dockerScriptText (code : String) : String := code

/-- The `docker run` command line built by `_execute_docker`. -/
def dockerCmd (tempPath image : String) : List String :=
  ["docker", "run", "--rm",
   "--network", "none",
   "--memory", "512m",
   "--cpus", "1.0",
   "-v", tempPath ++ ":/workspace",
   "-w", "/workspace",
   image,
   "sh", "-c", "pip install -r requirements.txt > /dev/null && python execute.py"]

/-! ### Registry operation traces

A sequence of `create_artifact` calls, possibly interleaved with a save
that is immediately followed by a load of the very document just saved. -/

/-- One registry operation. -/
inductive RegOp where
  | create (artifact_type file_format : String) (path : PyPath) (query ts : String)
  | saveLoad (fp ts : String)
deriving DecidableEq, Repr

/-- Run a list of registry operations, collecting the identifier returned
by each `create` call in order. -/
def runOps : SMState → List RegOp → SMState × List String
  | s, [] => (s, [])
  | s, RegOp.create ty fmt p q ts :: rest =>
    let r := create_artifact s ty fmt p q ts
    let rr := runOps r.2 rest
    (rr.1, r.1.id :: rr.2)
  | s, RegOp.saveLoad fp ts :: rest =>
    runOps (load_session s fp (LoadInput.doc (rawOfDoc (save_session s ts)))).1 rest

/-- Registry states reachable by the program: every registered identifier
carries a nonnegative numeric suffix bounded by the counter, the keys are
distinct, the counter is nonnegative, and (when the registry is nonempty)
the counter is exactly the maximum registered suffix. -/
structure RegInv (s : SMState) : Prop where
  nonneg : 0 ≤ s.artifactCounter
  keysNodup : (s.artifacts.map Prod.fst).Nodup
  bounded : ∀ p ∈ s.artifacts, ∃ n : Int,
    idNumericSuffix p.1 = some n ∧ 0 ≤ n ∧ n ≤ s.artifactCounter
  maxEq : s.artifacts ≠ [] → ∃ vals,
    allSome ((s.artifacts.map Prod.fst).map idNumericSuffix) = some vals ∧
    pyMax vals = s.artifactCounter

/-! ### Concrete sample values used by counterexamples and witnesses -/

/-- A sample artifact path. -/
def samplePath : PyPath := ⟨"/outputs/session/chart_001.png"⟩

/-- A sample interaction. -/
def sampleInteraction : Interaction :=
  { query := "plot sales", plan := "p", code := "c", result_summary := "ok",
    artifacts := [], timestamp := "t0" }

/-- A second, distinct sample interaction. -/
def sampleInteraction2 : Interaction :=
  { query := "count rows", plan := "p2", code := "c2", result_summary := "ok2",
    artifacts := [], timestamp := "t1" }

/-- A state holding one interaction and no artifacts. -/
def c2state : SMState :=
  { interactions := [sampleInteraction], artifacts := [], artifactCounter := 0 }

/-- A parsed document whose interactions are fine but whose single artifact
entry does not match the `Artifact` constructor. -/
def c2doc : RawSessionDoc :=
  { interactions := [some sampleInteraction2],
    artifacts := [("x", none)], saved_at := "ts" }

/-- A parsed document whose single interaction entry does not match the
`Interaction` constructor. -/
def badInteractionDoc : RawSessionDoc :=
  { interactions := [none], artifacts := [], saved_at := "ts" }

/-- A registry that has allocated one chart. -/
def c3state : SMState :=
  (create_artifact initialSessionState "chart" "png" samplePath "plot sales" "t").2

/-- A well-formed parsed document holding no interactions and no
artifacts. -/
def emptyDoc : RawSessionDoc :=
  { interactions := [], artifacts := [], saved_at := "ts" }

/-- The saved form of `c3state`, reread: one artifact, `chart_001`. -/
def oneChartDoc : RawSessionDoc := rawOfDoc (save_session c3state "ts")

/-- A state with one interaction and one chart artifact. -/
def c5src : SMState :=
  { interactions := [sampleInteraction],
    artifacts := c3state.artifacts,
    artifactCounter := 1 }

/-- A script holding a textual `/data/` reference that is not preceded by a
quote character. -/
def c9script : String := "df = read( /data/sales.csv )"

/-- A sample sandbox input directory. -/
def c9data : String := "/tmp/sb/data"

/-- A sample sandbox output directory. -/
def c9out : String := "/tmp/sb/output"

/-- The argument tuple of one `create_artifact` call. -/
structure CreateCall where
  artifact_type : String
  file_format : String
  path : PyPath
  query : String
  ts : String
deriving DecidableEq, Repr

/-- Read a `create_artifact` call as a registry operation. -/
def CreateCall.toOp (c : CreateCall) : RegOp :=
  RegOp.create c.artifact_type c.file_format c.path c.query c.ts

/-- After one create: registry holding `chart_001`. -/
def c1s1 : SMState :=
  (create_artifact initialSessionState "chart" "png" samplePath "q" "t").2

/-- The document saved from `c1s1` (only `chart_001` in it). -/
def c1doc : SessionDoc := save_session c1s1 "ts"

/-- A second create made after the save: returns `chart_002`. -/
def c1a2 : Artifact × SMState := create_artifact c1s1 "chart" "png" samplePath "q2" "t2"

/-- The registry after loading the earlier saved document. -/
def c1s3 : SMState := (load_session c1a2.2 "f" (LoadInput.doc (rawOfDoc c1doc))).1

/-- A create made after that load. -/
def c1a3 : Artifact × SMState := create_artifact c1s3 "chart" "png" samplePath "q3" "t3"

/-- The argument tuple of one `add_interaction` call. -/
structure AddCall where
  query : String
  plan : String
  code : String
  result_summary : String
  artifact_ids : Option (List String)
  ts : String
deriving DecidableEq, Repr

/-- A fresh `SessionManager`'s history after a sequence of
`add_interaction` calls. -/
def runAddCalls (histLimit : Nat) (calls : List AddCall) : List Interaction :=
  calls.foldl
    (fun log a =>
      add_interaction histLimit log a.query a.plan a.code a.result_summary
        a.artifact_ids a.ts)
    []

end CellByte

namespace CellByte

/-! ## Helper lemmas -/

/-- Strings with different characters at some index differ. -/
theorem string_ne_of_getElem_ne (s t : String) (n : Nat)
    (h : s.data[n]? ≠ t.data[n]?) : s ≠ t :=
  fun e => h (by rw [e])

/-- Indexing an appended string inside its first part. -/
theorem append_data_getElem (a b : String) (n : Nat) (h : n < a.data.length) :
    (a ++ b).data[n]? = a.data[n]? := by
  rw [String.data_append]
  exact List.getElem?_append_left h

/-- Indexing `(a ++ b) ++ c` inside `a`. -/
theorem append_data_getElem2 (a b c : String) (n : Nat) (h : n < a.data.length) :
    ((a ++ b) ++ c).data[n]? = a.data[n]? := by
  rw [append_data_getElem, append_data_getElem a b n h]
  rw [String.data_append, List.length_append]
  omega

/-! ## Claim C4 -/

/-- Claim C4: on a timeout, either backend returns `success = false`, empty
stdout/stderr, an empty output-file mapping regardless of what sits in the
sandbox output area, and a timeout error message embedding the configured
duration; that message is distinct from the backend's launch-failure
messages. -/
theorem timeout_empty_outputs_and_distinct_message :
    ∀ (cf : Option String) (files : List OutFile) (dest : String) (t : Int),
      execute_subprocess RunOutcome.timedOut cf files dest t =
        { success := false, stdout := "", stderr := "", output_files := [],
          error := some ("Execution timed out after " ++ toString t ++ "s") } ∧
      execute_docker RunOutcome.timedOut cf files dest t =
        { success := false, stdout := "", stderr := "", output_files := [],
          error := some ("Docker execution timed out after " ++ toString t ++ "s") } ∧
      (∀ cause, ("Execution timed out after " ++ toString t ++ "s") ≠
        "Subprocess execution error: " ++ cause) ∧
      (∀ cause, ("Docker execution timed out after " ++ toString t ++ "s") ≠
        "Docker execution error: " ++ cause) := by
  intro cf files dest t
  refine ⟨rfl, rfl, ?_, ?_⟩
  · intro cause
    apply string_ne_of_getElem_ne _ _ 0
    rw [append_data_getElem2 _ _ _ 0 (by decide),
      append_data_getElem _ _ 0 (by decide)]
    decide
  · intro cause
    apply string_ne_of_getElem_ne _ _ 17
    rw [append_data_getElem2 _ _ _ 17 (by decide),
      append_data_getElem _ _ 17 (by decide)]
    decide

/-! ## Claim C6 -/

/-- Claim C6 is false as stated: when `_collect_output_files` raises after
the child completed with exit status zero, the generic `except` clause
returns `success = false` with `error` set to an execution-error
description — so `success` is not `true` exactly for a zero exit status,
and `error` is set by a failure that is neither a timeout nor a launch
failure. -/
theorem collection_failure_after_zero_exit_counterexample :
    (execute_subprocess (RunOutcome.completed 0 "done" "") (some "move failed")
      [] "d" 60).success = false ∧
    (execute_subprocess (RunOutcome.completed 0 "done" "") (some "move failed")
      [] "d" 60).error =
      some ("Subprocess execution error: " ++ "move failed") ∧
    (execute_docker (RunOutcome.completed 0 "done" "") (some "move failed")
      [] "d" 60).success = false ∧
    (execute_docker (RunOutcome.completed 0 "done" "") (some "move failed")
      [] "d" 60).error =
      some ("Docker execution error: " ++ "move failed") := by
  exact ⟨rfl, rfl, rfl, rfl⟩

/-- Claim C6 (amended): when the child runs to completion and the output
collection succeeds, either backend reports `success = true` exactly for
exit status zero, leaves `error` unset, and captures the script's stderr;
`error` is set precisely when the run itself failed (timeout or launch
failure) or the output collection failed after the run. -/
theorem completed_run_success_iff_exit_zero :
    ∀ (rc : Int) (out err : String) (files : List OutFile) (dest : String) (t : Int),
      ((execute_subprocess (RunOutcome.completed rc out err) none files dest t).success =
        decide (rc = 0) ∧
       (execute_subprocess (RunOutcome.completed rc out err) none files dest t).error =
        none ∧
       (execute_subprocess (RunOutcome.completed rc out err) none files dest t).stderr =
        err) ∧
      ((execute_docker (RunOutcome.completed rc out err) none files dest t).success =
        decide (rc = 0) ∧
       (execute_docker (RunOutcome.completed rc out err) none files dest t).error =
        none ∧
       (execute_docker (RunOutcome.completed rc out err) none files dest t).stderr =
        err) ∧
      (∀ (outcome : RunOutcome) (cf : Option String),
        (execute_subprocess outcome cf files dest t).error.isSome =
          (match outcome, cf with
           | RunOutcome.completed _ _ _, none => false
           | _, _ => true) ∧
        (execute_docker outcome cf files dest t).error.isSome =
          (match outcome, cf with
           | RunOutcome.completed _ _ _, none => false
           | _, _ => true)) := by
  intro rc out err files dest t
  refine ⟨⟨rfl, rfl, rfl⟩, ⟨rfl, rfl, rfl⟩, ?_⟩
  intro outcome cf
  cases outcome <;> cases cf <;> exact ⟨rfl, rfl⟩

/-! ## Claim C8 -/

/-- The classification table, read as a decision chain. -/
theorem lookup_typeMap (e : String) :
    (typeMap.lookup e).getD "file" =
      if e = ".png" ∨ e = ".jpg" then "chart"
      else if e = ".csv" ∨ e = ".xlsx" then "table"
      else "file" := by
  simp only [typeMap, List.lookup]
  repeat' split
  all_goals simp_all [beq_iff_eq]

/-- Claim C8: the collector's classification of an output file is a
function of the file's (lowercased) extension alone — content never enters —
with `.png`/`.jpg` mapping to `chart`, `.csv`/`.xlsx` to `table`, and every
other extension to `file`; and `_collect_output_files` records exactly that
classification for each regular file it moves. -/
theorem classification_is_extension_driven :
    (∀ (nm : String) (b : Bool) (c₁ c₂ : String),
      classifyFile ⟨nm, b, c₁⟩ = classifyFile ⟨nm, b, c₂⟩) ∧
    (∀ f : OutFile,
      classifyFile f =
        if (pySuffix f.name).toLower = ".png" ∨ (pySuffix f.name).toLower = ".jpg"
        then "chart"
        else if (pySuffix f.name).toLower = ".csv" ∨
            (pySuffix f.name).toLower = ".xlsx"
        then "table"
        else "file") ∧
    (∀ (f : OutFile) (dest : String),
      collect_output_files [f] dest =
        if f.isFile then [(classifyFile f, dest ++ "/" ++ f.name)] else []) := by
  refine ⟨fun nm b c₁ c₂ => rfl, fun f => lookup_typeMap _, ?_⟩
  intro f dest
  by_cases h : f.isFile <;>
    simp [collect_output_files, dictInsert, h]

/-! ## Claim C7 -/

/-- One `add_interaction` call keeps the history within a positive limit. -/
theorem add_interaction_length_le (L : Nat) (hpos : 0 < L)
    (log : List Interaction) (hlen : log.length ≤ L)
    (q p c rs : String) (aids : Option (List String)) (ts : String) :
    (add_interaction L log q p c rs aids ts).length ≤ L := by
  unfold add_interaction pyLastSlice
  simp only []
  split
  · rw [if_neg (by omega)]
    simp only [List.length_drop]
    omega
  · omega

/-- Folded form of `add_interaction_length_le`. -/
theorem foldl_add_length_le (L : Nat) (hpos : 0 < L) :
    ∀ (calls : List AddCall) (log : List Interaction), log.length ≤ L →
      (calls.foldl
        (fun log a =>
          add_interaction L log a.query a.plan a.code a.result_summary
            a.artifact_ids a.ts)
        log).length ≤ L
  | [], _, h => h
  | _ :: rest, log, h =>
    foldl_add_length_le L hpos rest _
      (add_interaction_length_le L hpos log h _ _ _ _ _ _)

/-- Claim C7: for a positive configured limit, no sequence of
`add_interaction` calls ever leaves more than `limit` entries in the log,
and a call made with the log exactly full drops the oldest entry, keeps the
rest in order, and appends the new interaction. -/
theorem history_retention_window (L : Nat) (hpos : 0 < L) :
    (∀ calls : List AddCall, (runAddCalls L calls).length ≤ L) ∧
    (∀ (log : List Interaction) (q p c rs : String)
        (aids : Option (List String)) (ts : String),
      log.length = L →
      add_interaction L log q p c rs aids ts =
        log.drop 1 ++ [⟨q, p, c, rs, aids.getD [], ts⟩]) := by
  constructor
  · intro calls
    exact foldl_add_length_le L hpos calls [] (by simp)
  · intro log q p c rs aids ts hlen
    unfold add_interaction pyLastSlice
    rw [if_pos (by simp [hlen]), if_neg (by omega)]
    have h1 :
        (log ++ [(⟨q, p, c, rs, aids.getD [], ts⟩ : Interaction)]).length - L = 1 := by
      simp [hlen]
    rw [h1, List.drop_append_of_le_length (by omega)]

/-- Witness for `history_retention_window` at limit 2. -/
theorem history_retention_window_witness :
    (runAddCalls 2
      [⟨"a", "b", "c", "d", none, "e"⟩, ⟨"f", "g", "h", "i", none, "j"⟩,
       ⟨"k", "l", "m", "n", none, "o"⟩]).length ≤ 2 ∧
    add_interaction 2 [sampleInteraction, sampleInteraction2]
        "q" "p" "c" "rs" none "ts" =
      [sampleInteraction2, ⟨"q", "p", "c", "rs", [], "ts"⟩] := by
  have h := history_retention_window 2 (by decide)
  refine ⟨h.1 _, ?_⟩
  have h2 := h.2 [sampleInteraction, sampleInteraction2]
    "q" "p" "c" "rs" none "ts" rfl
  simpa using h2

/-! ## Claim C2 -/

/-- Claim C2 is false as stated: a load that fails on a malformed artifact
entry raises, yet leaves the in-memory state changed — the interactions
list has already been replaced by the document's interactions. -/
theorem load_failure_mutates_state_counterexample :
    (load_session c2state "s.json" (LoadInput.doc c2doc)).2.isSome = true ∧
    (load_session c2state "s.json" (LoadInput.doc c2doc)).1 ≠ c2state ∧
    (load_session c2state "s.json" (LoadInput.doc c2doc)).1.interactions =
      [sampleInteraction2] := by
  decide

/-- Claim C2 (amended): every failing load call reports an error naming the
session file. The in-memory state is untouched when the failure is a
missing file, an unparsable document, or a malformed interaction entry; a
failure on a malformed artifact entry or an unparsable identifier suffix
occurs after the interactions list was replaced and the artifact map
partially rebuilt, but no failing load ever changes the identifier
counter. -/
theorem load_failure_state_effects :
    (∀ (s : SMState) (fp : String),
      load_session s fp LoadInput.missing =
        (s, some ("Session file not found: " ++ fp))) ∧
    (∀ (s : SMState) (fp : String),
      load_session s fp LoadInput.unparsable = (s, some (loadErrMsg fp))) ∧
    (∀ (s : SMState) (fp : String) (d : RawSessionDoc),
      allSome d.interactions = none →
      load_session s fp (LoadInput.doc d) = (s, some (loadErrMsg fp))) ∧
    (∀ (s : SMState) (fp : String) (inp : LoadInput),
      (load_session s fp inp).2.isSome = true →
      (load_session s fp inp).1.artifactCounter = s.artifactCounter) := by
  refine ⟨fun s fp => rfl, fun s fp => rfl, ?_, ?_⟩
  · intro s fp d h
    simp only [load_session, h]
  · intro s fp inp h
    cases inp with
    | missing => rfl
    | unparsable => rfl
    | doc d =>
      simp only [load_session] at h ⊢
      cases hi : allSome d.interactions with
      | none => simp only [hi]
      | some ins =>
        simp only [hi] at h ⊢
        cases hg : loadArtifactsGo d.artifacts [] with
        | mk arts ok =>
          simp only [hg] at h ⊢
          cases ok with
          | false => rfl
          | true =>
            simp only [] at h ⊢
            by_cases he : arts.isEmpty = true
            · rw [if_pos he] at h
              simp at h
            · rw [if_neg he] at h ⊢
              cases hv : allSome (List.map idNumericSuffix (List.map Prod.fst arts)) with
              | none => simp only [hv]
              | some vals =>
                rw [hv] at h
                simp at h

/-- Witness for `load_failure_state_effects`: concrete failing loads. -/
theorem load_failure_state_effects_witness :
    load_session c2state "f" LoadInput.missing =
      (c2state, some ("Session file not found: " ++ "f")) ∧
    load_session c2state "f" (LoadInput.doc badInteractionDoc) =
      (c2state, some (loadErrMsg "f")) ∧
    (load_session c2state "f" (LoadInput.doc c2doc)).1.artifactCounter =
      c2state.artifactCounter :=
  ⟨load_failure_state_effects.1 c2state "f",
   load_failure_state_effects.2.2.1 c2state "f" badInteractionDoc (by decide),
   load_failure_state_effects.2.2.2 c2state "f" (LoadInput.doc c2doc) (by decide)⟩

/-! ## Claim C3 -/

/-- An initial value is below its `max`-fold. -/
theorem le_foldl_max (l : List Int) : ∀ b : Int, b ≤ l.foldl max b := by
  induction l with
  | nil => intro b; exact le_refl b
  | cons c t ih =>
    intro b
    exact le_trans (le_max_left b c) (ih (max b c))

/-- Every member is below a `max`-fold. -/
theorem mem_le_foldl_max (l : List Int) : ∀ (b v : Int), v ∈ l → v ≤ l.foldl max b := by
  induction l with
  | nil => intro b v hv; cases hv
  | cons c t ih =>
    intro b v hv
    rcases List.mem_cons.mp hv with h | h
    · subst h
      exact le_trans (le_max_right b v) (le_foldl_max t (max b v))
    · exact ih (max b c) v h

/-- `pyMax` dominates every element of the list. -/
theorem le_pyMax (l : List Int) (v : Int) (hv : v ∈ l) : v ≤ pyMax l := by
  cases l with
  | nil => cases hv
  | cons x xs =>
    rcases List.mem_cons.mp hv with h | h
    · subst h; exact le_foldl_max xs v
    · exact mem_le_foldl_max xs x v h

/-- Claim C3 is false as stated: loading a document with an empty artifact
set into a registry whose counter is 1 succeeds and leaves the counter at
1, not at the claimed default of zero. -/
theorem empty_load_keeps_counter_counterexample :
    (load_session c3state "f" (LoadInput.doc emptyDoc)).2 = none ∧
    (load_session c3state "f" (LoadInput.doc emptyDoc)).1.artifacts = [] ∧
    (load_session c3state "f" (LoadInput.doc emptyDoc)).1.artifactCounter = 1 ∧
    (load_session c3state "f" (LoadInput.doc emptyDoc)).1.artifactCounter ≠ 0 := by
  decide

/-- Claim C3 (amended): a successful load sets the counter to the maximum
numeric suffix of the loaded artifact identifiers — in particular never
lower than any of them — when the loaded set is nonempty, and leaves the
counter at its previous value (not necessarily zero) when the loaded set is
empty. -/
theorem counter_restored_to_max_suffix :
    ∀ (s : SMState) (fp : String) (d : RawSessionDoc) (s' : SMState),
      load_session s fp (LoadInput.doc d) = (s', none) →
      (s'.artifacts = [] → s'.artifactCounter = s.artifactCounter) ∧
      (s'.artifacts ≠ [] → ∃ vals,
        allSome ((s'.artifacts.map Prod.fst).map idNumericSuffix) = some vals ∧
        s'.artifactCounter = pyMax vals ∧
        ∀ v ∈ vals, v ≤ s'.artifactCounter) := by
  intro s fp d s' h
  simp only [load_session] at h
  cases hi : allSome d.interactions with
  | none => rw [hi] at h; simp at h
  | some ins =>
    rw [hi] at h
    cases hg : loadArtifactsGo d.artifacts [] with
    | mk arts ok =>
      rw [hg] at h
      cases ok with
      | false => simp only [] at h; simp at h
      | true =>
        simp only [] at h
        by_cases he : arts.isEmpty = true
        · rw [if_pos he] at h
          injection h with h1 _
          subst h1
          constructor
          · intro _; rfl
          · intro hne; exact absurd (List.isEmpty_iff.mp he) hne
        · rw [if_neg he] at h
          cases hv : allSome (List.map idNumericSuffix (List.map Prod.fst arts)) with
          | none => rw [hv] at h; simp at h
          | some vals =>
            rw [hv] at h
            injection h with h1 _
            subst h1
            constructor
            · intro hemp
              exact absurd (by rw [show arts = [] from hemp]; rfl) he
            · intro _
              exact ⟨vals, hv, rfl, fun v hvm => le_pyMax vals v hvm⟩

/-- Witness for `counter_restored_to_max_suffix`: an empty-set load keeps
the counter, and a one-chart load sets it to the suffix maximum 1. -/
theorem counter_restored_to_max_suffix_witness :
    ((load_session c3state "f" (LoadInput.doc emptyDoc)).1.artifactCounter =
      c3state.artifactCounter) ∧
    ∃ vals,
      allSome
        (((load_session initialSessionState "f"
            (LoadInput.doc oneChartDoc)).1.artifacts.map Prod.fst).map
          idNumericSuffix) = some vals ∧
      (load_session initialSessionState "f"
          (LoadInput.doc oneChartDoc)).1.artifactCounter = pyMax vals ∧
      ∀ v ∈ vals, v ≤
        (load_session initialSessionState "f"
          (LoadInput.doc oneChartDoc)).1.artifactCounter :=
  ⟨(counter_restored_to_max_suffix c3state "f" emptyDoc _ (by decide)).1 (by decide),
   (counter_restored_to_max_suffix initialSessionState "f" oneChartDoc _
      (by decide)).2 (by decide)⟩

/-! ## Claim C5 -/

/-- A comprehension over already-valid entries succeeds with the entries
themselves. -/
theorem allSome_map_some (l : List α) : allSome (l.map some) = some l := by
  induction l with
  | nil => rfl
  | cons a t ih => simp [allSome, ih]

/-- A comprehension over entries that are all `some` succeeds. -/
theorem allSome_of_forall_isSome (l : List (Option α))
    (h : ∀ o ∈ l, o.isSome = true) : ∃ v, allSome l = some v := by
  induction l with
  | nil => exact ⟨[], rfl⟩
  | cons o t ih =>
    rcases ih (fun x hx => h x (List.mem_cons_of_mem o hx)) with ⟨v, hv⟩
    cases o with
    | none => cases h none (List.mem_cons_self _ _)
    | some a => exact ⟨a :: v, by simp [allSome, hv]⟩

/-- Inserting a fresh key into a Python dict appends it. -/
theorem dictInsert_fresh (l : List (String × α)) (k : String) (v : α)
    (h : ∀ p ∈ l, p.1 ≠ k) : dictInsert l k v = l ++ [(k, v)] := by
  induction l with
  | nil => rfl
  | cons p t ih =>
    simp only [dictInsert]
    rw [if_neg (h p (List.mem_cons_self p t))]
    rw [ih (fun q hq => h q (List.mem_cons_of_mem p hq))]
    rfl

/-- `Artifact.to_dict` followed by the load-side reconstruction is the
identity. -/
theorem artifactOfDict_to_dict (a : Artifact) : artifactOfDict a.to_dict = a := rfl

/-- Rebuilding a saved artifact dict entry by entry restores it, provided
its keys are distinct (Python dict keys always are). -/
theorem loadArtifactsGo_roundtrip :
    ∀ (l acc : List (String × Artifact)),
      ((acc ++ l).map Prod.fst).Nodup →
      loadArtifactsGo (l.map (fun p => (p.1, some p.2.to_dict))) acc =
        (acc ++ l, true) := by
  intro l
  induction l with
  | nil => intro acc _; simp [loadArtifactsGo]
  | cons p t ih =>
    intro acc hnd
    obtain ⟨k, a⟩ := p
    simp only [List.map_cons, loadArtifactsGo, artifactOfDict_to_dict]
    have hfresh : ∀ q ∈ acc, q.1 ≠ k := by
      intro q hq hqk
      have hmap : (acc.map Prod.fst ++ ((k, a) :: t).map Prod.fst).Nodup := by
        rw [← List.map_append]; exact hnd
      rcases List.nodup_append.mp hmap with ⟨_, _, hdisj⟩
      exact hdisj (List.mem_map_of_mem Prod.fst hq)
        (by rw [hqk]; exact List.mem_cons_self _ _)
    rw [dictInsert_fresh acc k a hfresh]
    have hassoc : (acc ++ [(k, a)]) ++ t = acc ++ (k, a) :: t := by
      rw [List.append_assoc]; rfl
    rw [ih (acc ++ [(k, a)]) (by rw [hassoc]; exact hnd), hassoc]

/-- Claim C5: saving a session and loading the saved document restores the
interactions and artifacts field for field (paths reconstructed from their
string encodings), whatever state the loading manager held; and when every
artifact identifier carries a numeric suffix — as all identifiers the
program allocates do — the load also succeeds without error. -/
theorem save_load_round_trip :
    ∀ (src tgt : SMState) (fp ts : String),
      (src.artifacts.map Prod.fst).Nodup →
      (load_session tgt fp
          (LoadInput.doc (rawOfDoc (save_session src ts)))).1.interactions =
        src.interactions ∧
      (load_session tgt fp
          (LoadInput.doc (rawOfDoc (save_session src ts)))).1.artifacts =
        src.artifacts ∧
      ((∀ k ∈ src.artifacts.map Prod.fst, (idNumericSuffix k).isSome = true) →
        (load_session tgt fp
          (LoadInput.doc (rawOfDoc (save_session src ts)))).2 = none) := by
  intro src tgt fp ts hnd
  have hdoc :
      (rawOfDoc (save_session src ts)).interactions =
        src.interactions.map some := rfl
  have hart :
      (rawOfDoc (save_session src ts)).artifacts =
        src.artifacts.map (fun p => (p.1, some p.2.to_dict)) := by
    simp [rawOfDoc, save_session, List.map_map]
  have hgo :
      loadArtifactsGo (rawOfDoc (save_session src ts)).artifacts [] =
        (src.artifacts, true) := by
    rw [hart]
    simpa using loadArtifactsGo_roundtrip src.artifacts [] (by simpa using hnd)
  simp only [load_session, hdoc, allSome_map_some, hgo]
  by_cases he : src.artifacts.isEmpty = true
  · rw [if_pos he]
    exact ⟨rfl, rfl, fun _ => rfl⟩
  · rw [if_neg he]
    cases hv : allSome (List.map idNumericSuffix (List.map Prod.fst src.artifacts)) with
    | none =>
      refine ⟨rfl, rfl, fun hk => ?_⟩
      exfalso
      rcases allSome_of_forall_isSome _
          (by intro o ho
              rcases List.mem_map.mp ho with ⟨k, hk2, rfl⟩
              exact hk k hk2) with ⟨v, hv2⟩
      rw [hv2] at hv
      cases hv
    | some vals => exact ⟨rfl, rfl, fun _ => rfl⟩

/-- Witness for `save_load_round_trip` on a one-interaction, one-artifact
session. -/
theorem save_load_round_trip_witness :
    (load_session initialSessionState "f"
        (LoadInput.doc (rawOfDoc (save_session c5src "ts")))).1.interactions =
      c5src.interactions ∧
    (load_session initialSessionState "f"
        (LoadInput.doc (rawOfDoc (save_session c5src "ts")))).1.artifacts =
      c5src.artifacts ∧
    (load_session initialSessionState "f"
        (LoadInput.doc (rawOfDoc (save_session c5src "ts")))).2 = none := by
  have h := save_load_round_trip c5src initialSessionState "f" "ts" (by decide)
  exact ⟨h.1, h.2.1, h.2.2 (by decide)⟩

/-! ## Claim C9 -/

/-- `replaceGo` leaves text without any occurrence of the pattern
unchanged. -/
theorem replaceGo_id (pat rep : List Char) :
    ∀ (fuel : Nat) (s : List Char), containsPat pat s = false →
      replaceGo pat rep fuel s = s := by
  intro fuel
  induction fuel with
  | zero => intro s _; cases s <;> rfl
  | succ n ih =>
    intro s h
    cases s with
    | nil => rfl
    | cons c rest =>
      simp only [containsPat, Bool.or_eq_false_iff] at h
      simp only [replaceGo]
      rw [if_neg (fun hc => by simp [h.1] at hc)]
      rw [ih rest h.2]

/-- `str.replace` leaves text without any occurrence of the pattern
unchanged. -/
theorem pyReplace_id (s pat rep : String)
    (h : containsPat pat.data s.data = false) : pyReplace s pat rep = s := by
  unfold pyReplace
  rw [replaceGo_id pat.data rep.data s.data.length s.data h]

theorem splitSegsGo_ne_nil (pat : List Char) :
    ∀ (fuel : Nat) (s : List Char), splitSegsGo pat fuel s ≠ [] := by
  intro fuel s
  match fuel, s with
  | _, [] => simp [splitSegsGo]
  | 0, c :: rest => simp [splitSegsGo]
  | fuel + 1, c :: rest =>
    simp only [splitSegsGo]
    split
    · simp
    · cases splitSegsGo pat fuel rest <;> simp

theorem joinWith_nil_cons (sep : List α) (L : List (List α)) (h : L ≠ []) :
    joinWith sep ([] :: L) = sep ++ joinWith sep L := by
  cases L with
  | nil => exact absurd rfl h
  | cons g gs => cases gs <;> rfl

theorem joinWith_cons_head (sep : List α) (c : α) (g : List α) (gs : List (List α)) :
    joinWith sep ((c :: g) :: gs) = c :: joinWith sep (g :: gs) := by
  cases gs <;> rfl

theorem replaceGo_eq_joinWith (pat rep : List Char) :
    ∀ (fuel : Nat) (s : List Char),
      replaceGo pat rep fuel s = joinWith rep (splitSegsGo pat fuel s) := by
  intro fuel
  induction fuel with
  | zero =>
    intro s
    cases s <;> rfl
  | succ f ih =>
    intro s
    cases s with
    | nil => rfl
    | cons c rest =>
      simp only [replaceGo, splitSegsGo]
      split
      · rw [joinWith_nil_cons rep _ (splitSegsGo_ne_nil pat f _), ih]
      · cases hg : splitSegsGo pat f rest with
        | nil => exact absurd hg (splitSegsGo_ne_nil pat f rest)
        | cons g gs =>
          rw [joinWith_cons_head, ← hg, ih]

theorem joinWith_pat_splitSegs (pat : List Char) :
    ∀ (fuel : Nat) (s : List Char),
      joinWith pat (splitSegsGo pat fuel s) = s := by
  intro fuel
  induction fuel with
  | zero => intro s; cases s <;> rfl
  | succ f ih =>
    intro s
    cases s with
    | nil => rfl
    | cons c rest =>
      simp only [splitSegsGo]
      split
      · rename_i hcond
        rw [joinWith_nil_cons pat _ (splitSegsGo_ne_nil pat f _), ih]
        obtain ⟨t, ht⟩ := (List.isPrefixOf_iff_prefix.mp hcond.2)
        rw [← ht, List.drop_left]
      · cases hg : splitSegsGo pat f rest with
        | nil => exact absurd hg (splitSegsGo_ne_nil pat f rest)
        | cons g gs =>
          rw [joinWith_cons_head, ← hg, ih]

theorem splitSegsGo_head_prefix (pat : List Char) :
    ∀ (fuel : Nat) (s g : List Char) (gs : List (List Char)),
      splitSegsGo pat fuel s = g :: gs → g <+: s := by
  intro fuel
  induction fuel with
  | zero =>
    intro s g gs h
    cases s with
    | nil =>
      simp only [splitSegsGo] at h
      injection h with h1 _
      subst h1
      exact List.nil_prefix
    | cons c rest =>
      simp only [splitSegsGo] at h
      injection h with h1 _
      subst h1
      exact List.prefix_refl _
  | succ f ih =>
    intro s g gs h
    cases s with
    | nil =>
      simp only [splitSegsGo] at h
      injection h with h1 _
      subst h1
      exact List.nil_prefix
    | cons c rest =>
      simp only [splitSegsGo] at h
      split at h
      · injection h with h1 _
        subst h1
        exact List.nil_prefix
      · cases hg : splitSegsGo pat f rest with
        | nil => exact absurd hg (splitSegsGo_ne_nil pat f rest)
        | cons g0 gs0 =>
          rw [hg] at h
          injection h with h1 _
          subst h1
          exact List.cons_prefix_cons.mpr ⟨rfl, ih rest g0 gs0 hg⟩

theorem splitSegsGo_pattern_free (pat : List Char) (hpat : pat ≠ []) :
    ∀ (fuel : Nat) (s : List Char), s.length ≤ fuel →
      ∀ g ∈ splitSegsGo pat fuel s, containsPat pat g = false := by
  intro fuel
  induction fuel with
  | zero =>
    intro s hs g hg
    cases s with
    | nil =>
      simp only [splitSegsGo] at hg
      rw [List.mem_singleton.mp hg]
      simpa [containsPat] using hpat
    | cons c rest => simp at hs
  | succ f ih =>
    intro s hs g hg
    cases s with
    | nil =>
      simp only [splitSegsGo] at hg
      rw [List.mem_singleton.mp hg]
      simpa [containsPat] using hpat
    | cons c rest =>
      simp only [splitSegsGo] at hg
      split at hg
      · rcases List.mem_cons.mp hg with rfl | hg
        · simpa [containsPat] using hpat
        · refine ih _ ?_ g hg
          simp only [List.length_cons] at hs
          have h1 : 1 ≤ pat.length := by
            cases pat with
            | nil => exact absurd rfl hpat
            | cons p ps => simp
          simp only [List.length_drop, List.length_cons]
          omega
      · rename_i hcond
        cases hg2 : splitSegsGo pat f rest with
        | nil => exact absurd hg2 (splitSegsGo_ne_nil pat f rest)
        | cons g0 gs0 =>
          rw [hg2] at hg
          have hrest : rest.length ≤ f := by
            simp only [List.length_cons] at hs
            omega
          rcases List.mem_cons.mp hg with rfl | hg
          · simp only [containsPat, Bool.or_eq_false_iff]
            constructor
            · by_contra hpre
              apply hcond
              refine ⟨hpat, ?_⟩
              have hbool : pat.isPrefixOf (c :: g0) = true := by
                cases hp : pat.isPrefixOf (c :: g0)
                · exact absurd hp hpre
                · rfl
              have hpfx : pat <+: c :: g0 := List.isPrefixOf_iff_prefix.mp hbool
              have hg0 : g0 <+: rest := splitSegsGo_head_prefix pat f rest g0 gs0 hg2
              have : (c :: g0) <+: (c :: rest) :=
                List.cons_prefix_cons.mpr ⟨rfl, hg0⟩
              exact List.isPrefixOf_iff_prefix.mpr (hpfx.trans this)
            · exact ih rest hrest g0 (by rw [hg2]; exact List.mem_cons_self _ _)
          · exact ih rest hrest g (by rw [hg2]; exact List.mem_cons_of_mem g0 hg)

/-- Claim C9 is false as stated: a script whose literal `/data/` reference
is not immediately preceded by a quote character is passed to execution
completely unchanged — the reference is not rewritten into a sandbox
path. -/
theorem bare_data_reference_not_rewritten_counterexample :
    prepare_code_for_local_execution c9script c9data c9out = c9script ∧
    containsPat "/data/".data c9script.data = true := by
  constructor
  · decide
  · decide

/-- Claim C9 (amended): for every script text, the local-process backend
rewrites exactly the occurrences of `/data/` or `/output/` that open a
string literal (that is, are immediately preceded by a single or double
quote), and nothing else. Formally: each of `prepare`'s four `str.replace`
stages sends its input to its pattern-free segments joined by the
raw-string sandbox replacement, where the segments are the unique greedy
leftmost decomposition of the input at the quoted pattern — joining those
same segments with the pattern itself restores the input verbatim (so all
other text, in particular every bare `/data/` or `/output/` reference, is
left unchanged), and no segment contains the pattern (so every quoted
occurrence is rewritten). A script with no quote-opened reference passes
through untouched, and the spec's single-reference example rewrites as
stated. The container backend runs the script text unmodified and
bind-mounts the sandbox root into the container. -/
theorem placeholder_rewrite_quote_prefixed_only :
    (∀ (s pat rep : String), pat.data ≠ [] →
      pyReplace s pat rep = ⟨joinWith rep.data (patSegments pat s)⟩ ∧
      joinWith pat.data (patSegments pat s) = s.data ∧
      ∀ g ∈ patSegments pat s, containsPat pat.data g = false) ∧
    (∀ (code dataDir outputDir : String),
      prepare_code_for_local_execution code dataDir outputDir =
        pyReplace (pyReplace (pyReplace
          (pyReplace code (sq ++ "/data/") ("r" ++ sq ++ dataDir ++ "/"))
          (dq ++ "/data/") ("r" ++ dq ++ dataDir ++ "/"))
          (sq ++ "/output/") ("r" ++ sq ++ outputDir ++ "/"))
          (dq ++ "/output/") ("r" ++ dq ++ outputDir ++ "/")) ∧
    ((sq ++ "/data/").data ≠ [] ∧ (dq ++ "/data/").data ≠ [] ∧
      (sq ++ "/output/").data ≠ [] ∧ (dq ++ "/output/").data ≠ []) ∧
    (∀ (code dataDir outputDir : String),
      containsPat (sq ++ "/data/").data code.data = false →
      containsPat (dq ++ "/data/").data code.data = false →
      containsPat (sq ++ "/output/").data code.data = false →
      containsPat (dq ++ "/output/").data code.data = false →
      prepare_code_for_local_execution code dataDir outputDir = code) ∧
    (prepare_code_for_local_execution (dq ++ "/data/sales.csv" ++ dq) c9data c9out =
      "r" ++ dq ++ "/tmp/sb/data/sales.csv" ++ dq) ∧
    (∀ code, dockerScriptText code = code) ∧
    (∀ tempPath image, ("-v" ∈ dockerCmd tempPath image) ∧
      (tempPath ++ ":/workspace") ∈ dockerCmd tempPath image) := by
  refine ⟨?_, fun code dataDir outputDir => rfl, by decide, ?_, by decide,
    fun _ => rfl, ?_⟩
  · intro s pat rep hpat
    refine ⟨?_, ?_, ?_⟩
    · unfold pyReplace patSegments
      exact congrArg String.mk
        (replaceGo_eq_joinWith pat.data rep.data s.data.length s.data)
    · exact joinWith_pat_splitSegs pat.data s.data.length s.data
    · exact splitSegsGo_pattern_free pat.data hpat s.data.length s.data (le_refl _)
  · intro code dataDir outputDir h1 h2 h3 h4
    unfold prepare_code_for_local_execution
    simp only [pyReplace_id _ _ _ h1, pyReplace_id _ _ _ h2,
      pyReplace_id _ _ _ h3, pyReplace_id _ _ _ h4]
  · intro tempPath image
    constructor
    · simp [dockerCmd]
    · simp [dockerCmd]

/-- Witness for `placeholder_rewrite_quote_prefixed_only`: the segment
characterization applied to the quoted-`/data/` pattern on a concrete
script, and an unquoted-reference script passing through untouched. -/
theorem placeholder_rewrite_quote_prefixed_only_witness :
    (pyReplace c9script (sq ++ "/data/") "X" =
      ⟨joinWith ("X" : String).data (patSegments (sq ++ "/data/") c9script)⟩) ∧
    prepare_code_for_local_execution c9script c9data c9out = c9script :=
  ⟨(placeholder_rewrite_quote_prefixed_only.1 c9script (sq ++ "/data/") "X"
      (by decide)).1,
   placeholder_rewrite_quote_prefixed_only.2.2.2.1 c9script c9data c9out
    (by decide) (by decide) (by decide) (by decide)⟩

/-! ## Decimal rendering and identifier-suffix lemmas

These establish that the numeric suffix embedded by `create_artifact` into
an identifier is recovered exactly by the suffix parse of `load_session`. -/

theorem digitChar_props : ∀ d < 10, (digitChar d).isDigit = true ∧
    digitChar d ≠ '_' ∧ digitChar d ≠ '-' := by decide

theorem natToDigits_lt (n : Nat) (h : n < 10) : natToDigits n = [digitChar n] := by
  unfold natToDigits natDigitsGo
  rw [if_pos h]

theorem natDigitsGo_eq (n : Nat) : ∀ (fuel : Nat) (acc : List Char), n < fuel →
    natDigitsGo fuel n acc = natToDigits n ++ acc := by
  induction n using Nat.strong_induction_on with
  | _ n ih =>
    intro fuel acc hf
    cases fuel with
    | zero => omega
    | succ f =>
      by_cases h : n < 10
      · simp only [natDigitsGo, if_pos h, natToDigits_lt n h]
        rfl
      · have hdiv : n / 10 < n := Nat.div_lt_self (by omega) (by omega)
        have hsplit : natToDigits n = natToDigits (n / 10) ++ [digitChar (n % 10)] := by
          show natDigitsGo (n + 1) n [] = _
          simp only [natDigitsGo, if_neg h]
          rw [ih (n / 10) hdiv n [digitChar (n % 10)] (by omega)]
        simp only [natDigitsGo, if_neg h]
        rw [ih (n / 10) hdiv f _ (by omega), hsplit, List.append_assoc]
        rfl

theorem natToDigits_succ (n : Nat) (h : ¬n < 10) :
    natToDigits n = natToDigits (n / 10) ++ [digitChar (n % 10)] := by
  show natDigitsGo (n + 1) n [] = _
  simp only [natDigitsGo, if_neg h]
  exact natDigitsGo_eq (n / 10) n [digitChar (n % 10)]
    (Nat.div_lt_self (by omega) (by omega))

theorem natToDigits_ne_nil (n : Nat) : natToDigits n ≠ [] := by
  by_cases h : n < 10
  · rw [natToDigits_lt n h]; simp
  · rw [natToDigits_succ n h]; simp

theorem natToDigits_all (n : Nat) : ∀ c ∈ natToDigits n,
    c.isDigit = true ∧ c ≠ '_' ∧ c ≠ '-' := by
  induction n using Nat.strong_induction_on with
  | _ n ih =>
    by_cases h : n < 10
    · rw [natToDigits_lt n h]
      intro c hc
      rw [List.mem_singleton.mp hc]
      exact digitChar_props n h
    · rw [natToDigits_succ n h]
      intro c hc
      rcases List.mem_append.mp hc with hc | hc
      · exact ih (n / 10) (Nat.div_lt_self (by omega) (by omega)) c hc
      · rw [List.mem_singleton.mp hc]
        exact digitChar_props (n % 10) (Nat.mod_lt n (by omega))

theorem parseDigitsGo_append :
    ∀ (xs : List Char) (acc v : Int), parseDigitsGo acc xs = some v →
      ∀ ys, parseDigitsGo acc (xs ++ ys) = parseDigitsGo v ys := by
  intro xs
  induction xs with
  | nil =>
    intro acc v h ys
    simp only [parseDigitsGo] at h
    cases h
    rfl
  | cons c cs ih =>
    intro acc v h ys
    simp only [parseDigitsGo] at h ⊢
    by_cases hd : c.isDigit = true
    · rw [if_pos hd] at h ⊢
      exact ih _ v h ys
    · rw [if_neg hd] at h
      cases h

theorem digitChar_toNat : ∀ d < 10, ((digitChar d).toNat - 48 : Nat) = d := by decide

theorem parse_natToDigits (n : Nat) : ∀ acc : Int,
    parseDigitsGo acc (natToDigits n) =
      some (acc * 10 ^ (natToDigits n).length + n) := by
  induction n using Nat.strong_induction_on with
  | _ n ih =>
    intro acc
    by_cases h : n < 10
    · rw [natToDigits_lt n h]
      simp only [parseDigitsGo, if_pos (digitChar_props n h).1]
      rw [digitChar_toNat n h]
      simp only [List.length_singleton, pow_one]
      congr 1
      ring
    · rw [natToDigits_succ n h]
      have hdiv : n / 10 < n := Nat.div_lt_self (by omega) (by omega)
      rw [parseDigitsGo_append _ _ _ (ih (n / 10) hdiv acc) _]
      have hm : n % 10 < 10 := Nat.mod_lt n (by omega)
      simp only [parseDigitsGo, if_pos (digitChar_props (n % 10) hm).1]
      rw [digitChar_toNat (n % 10) hm]
      have hdm : ((10 * (n / 10) + n % 10 : Nat) : Int) = (n : Int) := by
        rw [Nat.div_add_mod]
      simp only [List.length_append, List.length_singleton]
      congr 1
      push_cast at hdm ⊢
      linear_combination hdm

theorem parse_padZeros : ∀ (k : Nat) (acc : Int) (ds : List Char),
    parseDigitsGo acc (List.replicate k '0' ++ ds) =
      parseDigitsGo (acc * 10 ^ k) ds := by
  intro k
  induction k with
  | zero => intro acc ds; simp
  | succ k ih =>
    intro acc ds
    rw [List.replicate_succ, List.cons_append]
    simp only [parseDigitsGo, if_pos (by decide : ('0').isDigit = true)]
    rw [show (('0').toNat - 48 : Nat) = 0 from by decide]
    rw [show (10 * acc + ((0 : Nat) : Int)) = 10 * acc from by push_cast; ring]
    rw [ih (10 * acc) ds]
    congr 1
    ring

theorem pyIntChars_digits (l : List Char) (hne : l ≠ [])
    (hd : ∀ c ∈ l, c.isDigit = true) : pyIntChars l = parseDigitsGo 0 l := by
  cases l with
  | nil => exact absurd rfl hne
  | cons c cs =>
    have hc : c.isDigit = true := hd c (List.mem_cons_self _ _)
    have hne2 : ¬c = '-' := by
      intro e
      rw [e] at hc
      exact absurd hc (by decide)
    simp only [pyIntChars, if_neg hne2]

theorem zfill3_data_nonneg (m : Int) (hm : 0 ≤ m) :
    (zfill3 m).data = padZeros 3 (natToDigits m.toNat) := by
  unfold zfill3
  rw [if_neg (by omega)]

theorem pyIntChars_zfill3 (m : Int) (hm : 0 ≤ m) :
    pyIntChars (zfill3 m).data = some m := by
  rw [zfill3_data_nonneg m hm]
  unfold padZeros
  rw [pyIntChars_digits _ ?hne ?hdig]
  case hne =>
    intro h
    exact natToDigits_ne_nil m.toNat (List.append_eq_nil.mp h).2
  case hdig =>
    intro c hc
    rcases List.mem_append.mp hc with hc | hc
    · rw [(List.mem_replicate.mp hc).2]; decide
    · exact (natToDigits_all m.toNat c hc).1
  rw [parse_padZeros, zero_mul, parse_natToDigits m.toNat 0]
  rw [zero_mul, zero_add, Int.toNat_of_nonneg hm]

theorem zfill3_no_underscore (m : Int) (hm : 0 ≤ m) :
    ('_') ∉ (zfill3 m).data := by
  rw [zfill3_data_nonneg m hm]
  intro hmem
  rcases List.mem_append.mp hmem with hc | hc
  · exact absurd (List.mem_replicate.mp hc).2 (by decide)
  · exact ((natToDigits_all m.toNat _ hc).2.1 rfl).elim

theorem splitOnChar_ne_nil (sep : Char) : ∀ l : List Char, splitOnChar sep l ≠ [] := by
  intro l
  cases l with
  | nil => simp [splitOnChar]
  | cons c cs =>
    simp only [splitOnChar]
    by_cases h : c = sep
    · rw [if_pos h]; simp
    · rw [if_neg h]
      cases splitOnChar sep cs <;> simp

theorem splitOnChar_no_sep (sep : Char) :
    ∀ l : List Char, sep ∉ l → splitOnChar sep l = [l] := by
  intro l
  induction l with
  | nil => intro _; rfl
  | cons c cs ih =>
    intro h
    have hc : ¬c = sep := fun e => h (by rw [e]; exact List.mem_cons_self _ _)
    have hcs : sep ∉ cs := fun e => h (List.mem_cons_of_mem c e)
    simp only [splitOnChar, if_neg hc, ih hcs]

theorem splitOnChar_length_two (sep : Char) :
    ∀ l : List Char, sep ∈ l → 2 ≤ (splitOnChar sep l).length := by
  intro l
  induction l with
  | nil => intro h; cases h
  | cons c cs ih =>
    intro h
    simp only [splitOnChar]
    by_cases hc : c = sep
    · rw [if_pos hc]
      have := splitOnChar_ne_nil sep cs
      simp only [List.length_cons]
      have : 1 ≤ (splitOnChar sep cs).length :=
        List.length_pos.mpr (splitOnChar_ne_nil sep cs)
      omega
    · rw [if_neg hc]
      have hmem : sep ∈ cs := by
        rcases List.mem_cons.mp h with h1 | h1
        · exact absurd h1.symm hc
        · exact h1
      have h2 := ih hmem
      cases hg : splitOnChar sep cs with
      | nil => exact absurd hg (splitOnChar_ne_nil sep cs)
      | cons g gs =>
        rw [hg] at h2
        simpa using h2

theorem splitOnChar_getLast_append (sep : Char) :
    ∀ (xs ys : List Char), sep ∉ ys →
      (splitOnChar sep (xs ++ sep :: ys)).getLastD [] = ys := by
  intro xs
  induction xs with
  | nil =>
    intro ys hys
    simp only [List.nil_append, splitOnChar, if_pos rfl]
    rw [splitOnChar_no_sep sep ys hys]
    rfl
  | cons x xs ih =>
    intro ys hys
    simp only [List.cons_append, splitOnChar]
    by_cases hx : x = sep
    · rw [if_pos hx]
      rw [List.getLastD_cons]
      exact ih ys hys
    · rw [if_neg hx]
      have hmem : sep ∈ xs ++ sep :: ys := by
        apply List.mem_append.mpr
        right
        exact List.mem_cons_self _ _
      have hlen := splitOnChar_length_two sep _ hmem
      have h1 := ih ys hys
      cases hg : splitOnChar sep (xs ++ sep :: ys) with
      | nil => exact absurd hg (splitOnChar_ne_nil sep _)
      | cons g gs =>
        rw [hg] at h1 hlen
        cases gs with
        | nil => simp at hlen
        | cons g2 gs2 =>
          rw [List.getLastD_cons] at h1 ⊢
          rw [List.getLastD_cons] at h1 ⊢
          exact h1

theorem idNumericSuffix_mkArtifactId (ty : String) (m : Int) (hm : 0 ≤ m) :
    idNumericSuffix (mkArtifactId ty m) = some m := by
  unfold idNumericSuffix mkArtifactId
  have hdata : (ty ++ "_" ++ zfill3 m).data = ty.data ++ ('_') :: (zfill3 m).data := by
    rw [String.data_append, String.data_append]
    rw [List.append_assoc]
    rfl
  rw [hdata, splitOnChar_getLast_append ('_') ty.data (zfill3 m).data
    (zfill3_no_underscore m hm)]
  exact pyIntChars_zfill3 m hm

/-! ## Claims C1 and C10: registry traces -/

theorem allSome_append (xs ys : List (Option α)) (as bs : List α)
    (hx : allSome xs = some as) (hy : allSome ys = some bs) :
    allSome (xs ++ ys) = some (as ++ bs) := by
  induction xs generalizing as with
  | nil =>
    simp only [allSome] at hx
    cases hx
    simpa using hy
  | cons o t ih =>
    cases o with
    | none => exact Option.noConfusion hx
    | some a =>
      simp only [allSome] at hx
      cases ht : allSome t with
      | none => rw [ht] at hx; cases hx
      | some ts =>
        rw [ht] at hx
        injection hx with h2
        subst h2
        simp only [List.cons_append, allSome, List.append_eq, ih ts ht]
        rfl

theorem foldl_max_le (m : Int) :
    ∀ (xs : List Int) (b : Int), b ≤ m → (∀ y ∈ xs, y ≤ m) →
      xs.foldl max b ≤ m := by
  intro xs
  induction xs with
  | nil => intro b hb _; exact hb
  | cons c t ih =>
    intro b hb hy
    simp only [List.foldl_cons]
    exact ih (max b c)
      (max_le hb (hy c (List.mem_cons_self _ _)))
      (fun y hyt => hy y (List.mem_cons_of_mem c hyt))

theorem pyMax_append_of_le (l : List Int) (m : Int) (h : ∀ x ∈ l, x ≤ m) :
    pyMax (l ++ [m]) = m := by
  cases l with
  | nil => rfl
  | cons x xs =>
    simp only [List.cons_append, pyMax, List.foldl_append, List.foldl_cons,
      List.foldl_nil]
    have hle : xs.foldl max x ≤ m :=
      foldl_max_le m xs x (h x (List.mem_cons_self _ _))
        (fun y hy => h y (List.mem_cons_of_mem x hy))
    exact max_eq_right hle

theorem create_artifact_id (s : SMState) (ty fmt : String) (p : PyPath) (q ts : String) :
    (create_artifact s ty fmt p q ts).1.id = mkArtifactId ty (s.artifactCounter + 1) := rfl

theorem create_artifact_state (s : SMState) (ty fmt : String) (p : PyPath) (q ts : String) :
    (create_artifact s ty fmt p q ts).2.artifactCounter = s.artifactCounter + 1 ∧
    (create_artifact s ty fmt p q ts).2.artifacts =
      dictInsert s.artifacts (mkArtifactId ty (s.artifactCounter + 1))
        (create_artifact s ty fmt p q ts).1 := ⟨rfl, rfl⟩

theorem RegInv_create (s : SMState) (h : RegInv s) (ty fmt : String)
    (p : PyPath) (q ts : String) :
    RegInv (create_artifact s ty fmt p q ts).2 := by
  have hc0 : (0 : Int) ≤ s.artifactCounter := h.nonneg
  have hsuf : idNumericSuffix (mkArtifactId ty (s.artifactCounter + 1)) =
      some (s.artifactCounter + 1) :=
    idNumericSuffix_mkArtifactId ty (s.artifactCounter + 1) (by omega)
  have hfresh : ∀ p' ∈ s.artifacts, p'.1 ≠ mkArtifactId ty (s.artifactCounter + 1) := by
    intro p' hp' he
    obtain ⟨n, hn, _, hnle⟩ := h.bounded p' hp'
    rw [he, hsuf] at hn
    injection hn with hn
    omega
  have hins : (create_artifact s ty fmt p q ts).2.artifacts =
      s.artifacts ++ [(mkArtifactId ty (s.artifactCounter + 1),
        (create_artifact s ty fmt p q ts).1)] := by
    rw [(create_artifact_state s ty fmt p q ts).2]
    exact dictInsert_fresh _ _ _ hfresh
  refine ⟨?_, ?_, ?_, ?_⟩
  · rw [(create_artifact_state s ty fmt p q ts).1]; omega
  · rw [hins, List.map_append]
    apply List.nodup_append.mpr
    refine ⟨h.keysNodup, List.nodup_singleton _, ?_⟩
    intro k hk1 hk2
    rcases List.mem_map.mp hk1 with ⟨p', hp', rfl⟩
    have : p'.1 = mkArtifactId ty (s.artifactCounter + 1) := by
      simpa using hk2
    exact hfresh p' hp' this
  · rw [hins]
    intro p' hp'
    rcases List.mem_append.mp hp' with hp' | hp'
    · obtain ⟨n, hn, hn0, hnle⟩ := h.bounded p' hp'
      refine ⟨n, hn, hn0, ?_⟩
      rw [(create_artifact_state s ty fmt p q ts).1]
      omega
    · rw [List.mem_singleton.mp hp']
      refine ⟨s.artifactCounter + 1, hsuf, by omega, ?_⟩
      rw [(create_artifact_state s ty fmt p q ts).1]
  · intro _
    rw [hins, List.map_append, List.map_append, List.map_singleton,
      List.map_singleton, hsuf]
    rcases heq : s.artifacts with _ | ⟨p0, t0⟩
    · refine ⟨[s.artifactCounter + 1], rfl, ?_⟩
      rw [(create_artifact_state s ty fmt p q ts).1]
      rfl
    · have hne : s.artifacts ≠ [] := by rw [heq]; simp
      obtain ⟨vals, hall, hmax⟩ := h.maxEq hne
      rw [← heq]
      refine ⟨vals ++ [s.artifactCounter + 1],
        allSome_append _ _ _ _ hall rfl, ?_⟩
      rw [(create_artifact_state s ty fmt p q ts).1]
      apply pyMax_append_of_le
      intro x hx
      have := le_pyMax vals x hx
      omega

theorem load_of_save_eq (s : SMState) (h : RegInv s) (fp ts : String) :
    load_session s fp (LoadInput.doc (rawOfDoc (save_session s ts))) = (s, none) := by
  have hdoc : (rawOfDoc (save_session s ts)).interactions =
      s.interactions.map some := rfl
  have hart : (rawOfDoc (save_session s ts)).artifacts =
      s.artifacts.map (fun p => (p.1, some p.2.to_dict)) := by
    simp [rawOfDoc, save_session, List.map_map]
  have hgo : loadArtifactsGo (rawOfDoc (save_session s ts)).artifacts [] =
      (s.artifacts, true) := by
    rw [hart]
    simpa using loadArtifactsGo_roundtrip s.artifacts [] (by simpa using h.keysNodup)
  simp only [load_session, hdoc, allSome_map_some, hgo]
  by_cases he : s.artifacts.isEmpty = true
  · rw [if_pos he]
  · rw [if_neg he]
    have hne : s.artifacts ≠ [] := fun e => he (by rw [e]; rfl)
    obtain ⟨vals, hall, hmax⟩ := h.maxEq hne
    rw [hall]
    simp only []
    rw [hmax]

theorem runOps_create (s : SMState) (ty fmt : String) (p : PyPath)
    (q ts : String) (rest : List RegOp) :
    runOps s (RegOp.create ty fmt p q ts :: rest) =
      ((runOps (create_artifact s ty fmt p q ts).2 rest).1,
       (create_artifact s ty fmt p q ts).1.id ::
         (runOps (create_artifact s ty fmt p q ts).2 rest).2) := rfl

theorem runOps_saveLoad (s : SMState) (fp ts : String) (rest : List RegOp) :
    runOps s (RegOp.saveLoad fp ts :: rest) =
      runOps (load_session s fp
        (LoadInput.doc (rawOfDoc (save_session s ts)))).1 rest := rfl

theorem RegInv_initial : RegInv initialSessionState :=
  ⟨le_refl 0, List.nodup_nil, fun p hp => absurd hp (List.not_mem_nil p),
   fun h => absurd rfl h⟩

theorem runOps_spec : ∀ (ops : List RegOp) (s : SMState), RegInv s →
    RegInv (runOps s ops).1 ∧
    (∀ i ∈ (runOps s ops).2, ∃ n : Int,
      idNumericSuffix i = some n ∧ s.artifactCounter < n) ∧
    (runOps s ops).2.Pairwise (fun a b => ∀ m n : Int,
      idNumericSuffix a = some m → idNumericSuffix b = some n → m < n) := by
  intro ops
  induction ops with
  | nil => intro s h; exact ⟨h, by simp [runOps], List.Pairwise.nil⟩
  | cons op rest ih =>
    intro s h
    cases op with
    | create ty fmt p q ts =>
      have hinv2 := RegInv_create s h ty fmt p q ts
      obtain ⟨ih1, ih2, ih3⟩ := ih _ hinv2
      have hsuf : idNumericSuffix (create_artifact s ty fmt p q ts).1.id =
          some (s.artifactCounter + 1) := by
        rw [create_artifact_id]
        exact idNumericSuffix_mkArtifactId ty _ (by have := h.nonneg; omega)
      have hcnt : (create_artifact s ty fmt p q ts).2.artifactCounter =
          s.artifactCounter + 1 := (create_artifact_state s ty fmt p q ts).1
      rw [runOps_create]
      refine ⟨ih1, ?_, ?_⟩
      · intro i hi
        rcases List.mem_cons.mp hi with rfl | hi
        · exact ⟨s.artifactCounter + 1, hsuf, by omega⟩
        · obtain ⟨n, hn, hgt⟩ := ih2 i hi
          rw [hcnt] at hgt
          exact ⟨n, hn, by omega⟩
      · apply List.pairwise_cons.mpr
        refine ⟨?_, ih3⟩
        intro b hb m n hm hn
        obtain ⟨n', hn', hgt⟩ := ih2 b hb
        rw [hcnt] at hgt
        rw [hsuf] at hm
        injection hm with hm
        rw [hn'] at hn
        injection hn with hn
        omega
    | saveLoad fp ts =>
      rw [runOps_saveLoad, load_of_save_eq s h fp ts]
      exact ih s h

/-- Claim C1 (amended): for every sequence of `create_artifact` calls,
also when interleaved with a save immediately followed by a load of that
saved document, the returned identifiers are pairwise distinct — and the
spec's own example holds: create `chart_001`, save, load, create again
yields `chart_002`. (The counterexample shows the restriction to
"no create between the save and the load" is necessary.) -/
theorem artifact_ids_unique_without_interleaved_creates :
    (∀ ops : List RegOp, ((runOps initialSessionState ops).2).Nodup) ∧
    (runOps initialSessionState
      [RegOp.create "chart" "png" samplePath "q" "t",
       RegOp.saveLoad "f" "ts",
       RegOp.create "chart" "png" samplePath "q2" "t2"]).2 =
      ["chart_001", "chart_002"] := by
  constructor
  · intro ops
    obtain ⟨_, hids, hpw⟩ := runOps_spec ops initialSessionState RegInv_initial
    apply List.Pairwise.imp_of_mem ?_ hpw
    intro a b ha _ hr heq
    obtain ⟨n, hn, _⟩ := hids a ha
    exact lt_irrefl n (hr n n hn (heq ▸ hn))
  · decide

/-- Claim C1 is false as stated: create `chart_001`, save, create
`chart_002`, then load the earlier saved document — the load succeeds,
drops the counter back to 1, and the next create returns `chart_002`
again, an identifier this registry had already allocated. -/
theorem duplicate_id_after_create_between_save_and_load :
    c1a2.1.id = "chart_002" ∧
    (load_session c1a2.2 "f" (LoadInput.doc (rawOfDoc c1doc))).2 = none ∧
    c1a3.1.id = "chart_002" ∧
    ¬ ([(create_artifact initialSessionState "chart" "png" samplePath "q" "t").1.id,
        c1a2.1.id, c1a3.1.id].Nodup) := by
  decide

theorem runCreates_suffixes : ∀ (calls : List CreateCall) (s : SMState),
    0 ≤ s.artifactCounter →
    ((runOps s (calls.map CreateCall.toOp)).2).map idNumericSuffix =
      (List.range calls.length).map
        (fun i : Nat => some (s.artifactCounter + (i : Int) + 1)) := by
  intro calls
  induction calls with
  | nil => intro s _; rfl
  | cons c t ih =>
    intro s hs
    simp only [List.map_cons, CreateCall.toOp, runOps_create, List.length_cons]
    have hsuf : idNumericSuffix
        (create_artifact s c.artifact_type c.file_format c.path c.query c.ts).1.id =
        some (s.artifactCounter + 1) := by
      rw [create_artifact_id]
      exact idNumericSuffix_mkArtifactId _ _ (by omega)
    have hcnt := (create_artifact_state s c.artifact_type c.file_format
      c.path c.query c.ts).1
    rw [hsuf, ih _ (by rw [hcnt]; omega), hcnt]
    rw [List.range_succ_eq_map, List.map_cons, List.map_map]
    congr 1
    · norm_num
    · apply List.map_congr_left
      intro i _
      simp only [Function.comp_apply]
      congr 1
      push_cast
      ring

/-- Claim C10: the identifier counter is one counter shared by all
artifact types — the n-th create call returns numeric suffix n regardless
of the type arguments, so suffixes are strictly increasing across the whole
registry, no two artifacts of any types share a suffix, and creating a
chart then a table yields `chart_001` and `table_002`. -/
theorem artifact_counter_shared_across_types :
    (∀ calls : List CreateCall,
      ((runOps initialSessionState (calls.map CreateCall.toOp)).2).map
          idNumericSuffix =
        (List.range calls.length).map (fun i : Nat => some ((i : Int) + 1))) ∧
    (∀ calls : List CreateCall,
      (((runOps initialSessionState (calls.map CreateCall.toOp)).2).map
        idNumericSuffix).Nodup) ∧
    (runOps initialSessionState
        [RegOp.create "chart" "png" samplePath "q" "t",
         RegOp.create "table" "csv" samplePath "q" "t"]).2 =
      ["chart_001", "table_002"] := by
  have hmain : ∀ calls : List CreateCall,
      ((runOps initialSessionState (calls.map CreateCall.toOp)).2).map
          idNumericSuffix =
        (List.range calls.length).map (fun i : Nat => some ((i : Int) + 1)) := by
    intro calls
    have h := runCreates_suffixes calls initialSessionState (le_refl 0)
    simpa [initialSessionState] using h
  refine ⟨hmain, ?_, by decide⟩
  intro calls
  rw [hmain calls]
  apply List.Nodup.map ?_ (List.nodup_range _)
  intro i j hij
  simp only [Option.some.injEq] at hij
  omega

end CellByte
